import Mathlib

/-!
Verification of the finding-to-impression matching and report-assembly
pipeline of the radreport repository.

The development shallowly embeds the relevant Python source:
  - utils/supabase_client.py : get_impression (three-tier matcher)
  - utils/claude_client.py   : categorize_findings response parsing
  - utils/report_generator.py: generate_report (section assembly)
External collaborators (the generative text service, the backing store)
are modelled as explicit function parameters; each call to a generative
service is recorded in an explicit trace.

Python string operations are modelled over the character list of a Lean
string: lower, strip, substring containment, startswith and whitespace
splitting; Char.toLower / Char.isWhitespace stand for their ASCII
behaviour, which covers all inputs considered here.
-/

namespace RadReport

/-- Python str.lower, character by character. -/
def pyLower (s : String) : String :=
  String.mk (s.toList.map Char.toLower)

/-- Python str.strip with no argument: drop whitespace from both ends. -/
def pyStrip (s : String) : String :=
  String.mk (((s.toList.dropWhile Char.isWhitespace).reverse.dropWhile Char.isWhitespace).reverse)

/-- Contiguous-sublist test on character lists, modelling the Python
operator p in s for strings. -/
def substrOf (p : List Char) : List Char → Bool
  | [] => p.isEmpty
  | c :: cs => p.isPrefixOf (c :: cs) || substrOf p cs

/-- Python p in s on strings. -/
def pyIn (p s : String) : Bool :=
  substrOf p.toList s.toList

/-- Python s.startswith(p). -/
def pyStartsWith (s p : String) : Bool :=
  p.toList.isPrefixOf s.toList

/-- Whitespace split of a character list: runs of non-whitespace become
tokens, empty tokens are dropped (Python str.split with no argument). -/
def splitWsGo : List Char → List Char → List (List Char)
  | [], acc => if acc.isEmpty then [] else [acc.reverse]
  | c :: cs, acc =>
    if c.isWhitespace then
      if acc.isEmpty then splitWsGo cs [] else acc.reverse :: splitWsGo cs []
    else splitWsGo cs (c :: acc)

/-- Python str.split with no argument. -/
def pySplit (s : String) : List String :=
  (splitWsGo s.toList []).map String.mk

/-- Newline split of a character list with explicit separator
semantics: Python str.split with a separator argument keeps empty
pieces. -/
def splitNlGo : List Char → List Char → List String
  | [], acc => [String.mk acc.reverse]
  | c :: cs, acc =>
    if c = '\n' then String.mk acc.reverse :: splitNlGo cs []
    else splitNlGo cs (c :: acc)

/-- Python s.split of a string on the newline separator. -/
def pySplitNl (s : String) : List String :=
  splitNlGo s.toList []

/-- Cardinality of set(ws) intersected with set(pws): the number of
distinct members of ws that also occur in pws. -/
def countCommon (ws pws : List String) : Nat :=
  (ws.dedup.filter (fun w => pws.contains w)).length

/-- A row of the impression_lookup table, restricted to one section:
finding_pattern and impression_text. -/
structure PatternRec where
  finding_pattern : String
  impression_text : String
deriving DecidableEq, Repr

/-- Stable descending insertion by score: the inserted element goes in
front of the first strictly smaller score, after equal scores.  This is
the behaviour of Python list.sort(reverse=True, key=score), which is
stable, followed by taking the head. -/
def insDesc (x : Nat × String) : List (Nat × String) → List (Nat × String)
  | [] => [x]
  | y :: ys => if y.1 ≤ x.1 then x :: y :: ys else y :: insDesc x ys

/-- Stable sort by descending score. -/
def sortDesc : List (Nat × String) → List (Nat × String)
  | [] => []
  | x :: xs => insDesc x (sortDesc xs)

/-- Substring-tier candidates of get_impression: each stored record
whose lower-cased pattern is a substring of the lower-cased finding
contributes (len(pattern) + 5-point start bonus, impression_text), in
store order. -/
def subCandidates (data : List PatternRec) (finding : String) : List (Nat × String) :=
  let fl := pyLower finding
  data.filterMap (fun r =>
    let p := pyLower r.finding_pattern
    if pyIn p fl then
      some (p.length + (if pyStartsWith fl p then 5 else 0), r.impression_text)
    else none)

/-- Token-overlap-tier candidates of get_impression: a record qualifies
when the number of distinct shared lower-cased whitespace tokens is at
least min 2 (number of pattern tokens); its score is that count. -/
def tokCandidates (data : List PatternRec) (finding : String) : List (Nat × String) :=
  let words := pySplit (pyLower finding)
  data.filterMap (fun r =>
    let pw := pySplit (pyLower r.finding_pattern)
    let common := countCommon words pw
    if min 2 pw.length ≤ common then some (common, r.impression_text) else none)

/-- SupabaseClient.get_impression on the rows returned for the section:
exact tier, then substring tier (stable descending sort by score, first
element), then token-overlap tier, else no match. -/
def getImpression (data : List PatternRec) (finding : String) : Option String :=
  if data = [] then none
  else
    let fl := pyLower finding
    match data.find? (fun r => pyLower r.finding_pattern == fl) with
    | some r => some r.impression_text
    | none =>
      match (sortDesc (subCandidates data finding)).head? with
      | some m => some m.2
      | none =>
        match (sortDesc (tokCandidates data finding)).head? with
        | some m => some m.2
        | none => none

/-- The try/except wrapper of get_impression: the store query either
returns rows or raises; the except branch logs and returns None. -/
def getImpressionResp (resp : Except String (List PatternRec)) (finding : String) : Option String :=
  match resp with
  | Except.error _ => none
  | Except.ok data => getImpression data finding

/-- Leftmost element of maximal score, the element selected by a stable
descending sort followed by taking the head. -/
def firstMax : List (Nat × String) → Option (Nat × String)
  | [] => none
  | x :: xs =>
    match firstMax xs with
    | none => some x
    | some y => some (if x.1 < y.1 then y else x)

theorem length_insDesc (x : Nat × String) (l : List (Nat × String)) :
    (insDesc x l).length = l.length + 1 := by
  induction l with
  | nil => rfl
  | cons y ys ih =>
    simp only [insDesc]
    split
    · simp
    · simp [ih]

theorem length_sortDesc (l : List (Nat × String)) :
    (sortDesc l).length = l.length := by
  induction l with
  | nil => rfl
  | cons x xs ih => simp [sortDesc, length_insDesc, ih]

theorem sortDesc_head_eq_firstMax (l : List (Nat × String)) :
    (sortDesc l).head? = firstMax l := by
  induction l with
  | nil => rfl
  | cons x xs ih =>
    simp only [sortDesc, firstMax]
    cases h : sortDesc xs with
    | nil =>
      have hx : xs = [] := by
        have := length_sortDesc xs
        rw [h] at this
        exact List.eq_nil_of_length_eq_zero this.symm
      subst hx
      simp [insDesc, firstMax]
    | cons b bs =>
      rw [h] at ih
      simp only [List.head?] at ih
      rw [← ih]
      simp only [insDesc]
      split
      · rename_i hle
        simp only [List.head?]
        rw [if_neg (by omega)]
      · rename_i hgt
        simp only [List.head?]
        rw [if_pos (by omega)]

theorem firstMax_eq_none (l : List (Nat × String)) :
    firstMax l = none ↔ l = [] := by
  cases l with
  | nil => simp [firstMax]
  | cons x xs =>
    simp only [firstMax]
    cases firstMax xs <;> simp

/-- Any element of a list sits below the score of its firstMax. -/
theorem firstMax_is_max (l : List (Nat × String)) (x : Nat × String)
    (hx : firstMax l = some x) : ∀ y ∈ l, y.1 ≤ x.1 := by
  induction l generalizing x with
  | nil => simp [firstMax] at hx
  | cons a as ih =>
    intro y hy
    cases h : firstMax as with
    | none =>
      have has : as = [] := (firstMax_eq_none as).mp h
      subst has
      simp only [firstMax] at hx
      cases hx
      simp at hy
      subst hy
      exact Nat.le_refl _
    | some m =>
      simp only [firstMax, h] at hx
      rcases List.mem_cons.mp hy with hya | hyas
      · subst hya
        by_cases hc : y.1 < m.1
        · rw [if_pos hc] at hx
          cases hx
          exact Nat.le_of_lt hc
        · rw [if_neg hc] at hx
          cases hx
          exact Nat.le_refl _
      · have hym := ih m h y hyas
        by_cases hc : a.1 < m.1
        · rw [if_pos hc] at hx
          cases hx
          exact hym
        · rw [if_neg hc] at hx
          cases hx
          exact Nat.le_trans hym (Nat.le_of_not_lt hc)

/-- firstMax decomposes the list as pre ++ x :: post where every earlier
element scores strictly less: x is the first element of maximal score. -/
theorem firstMax_decomp (l : List (Nat × String)) (x : Nat × String)
    (hx : firstMax l = some x) :
    ∃ pre post, l = pre ++ x :: post ∧ (∀ y ∈ pre, y.1 < x.1) ∧ ∀ y ∈ l, y.1 ≤ x.1 := by
  induction l generalizing x with
  | nil => simp [firstMax] at hx
  | cons a as ih =>
    have hmax := firstMax_is_max (a :: as) x hx
    cases h : firstMax as with
    | none =>
      have has : as = [] := (firstMax_eq_none as).mp h
      subst has
      simp only [firstMax] at hx
      cases hx
      exact ⟨[], [], rfl, by simp, hmax⟩
    | some m =>
      simp only [firstMax, h] at hx
      by_cases hc : a.1 < m.1
      · rw [if_pos hc] at hx
        cases hx
        rcases ih x h with ⟨pre, post, hsplit, hpre, _⟩
        refine ⟨a :: pre, post, by rw [hsplit]; simp, ?_, hmax⟩
        intro y hy
        rcases List.mem_cons.mp hy with hya | hyp
        · subst hya; exact hc
        · exact hpre y hyp
      · rw [if_neg hc] at hx
        cases hx
        exact ⟨[], as, rfl, by simp, hmax⟩

theorem substrOf_nil (l : List Char) : substrOf [] l = true := by
  induction l with
  | nil => rfl
  | cons c cs ih => simp [substrOf, List.isPrefixOf, ih]

theorem isPrefixOf_nil (l : List Char) : List.isPrefixOf [] l = true := by
  cases l <;> rfl

theorem subCandidates_nil (finding : String) : subCandidates [] finding = [] := rfl

theorem tokCandidates_nil (finding : String) : tokCandidates [] finding = [] := rfl

/-- Helper: head of the stable descending sort of a nonempty candidate
list is its leftmost maximal-score element. -/
theorem getImpression_no_exact (data : List PatternRec) (finding : String)
    (hne : data ≠ [])
    (hex : data.find? (fun r => pyLower r.finding_pattern == pyLower finding) = none) :
    getImpression data finding =
      match firstMax (subCandidates data finding) with
      | some m => some m.2
      | none =>
        match firstMax (tokCandidates data finding) with
        | some m => some m.2
        | none => none := by
  simp only [getImpression, if_neg hne, hex]
  rw [sortDesc_head_eq_firstMax, sortDesc_head_eq_firstMax]

/-- C1: whenever some stored record's finding_pattern is
case-insensitively equal to the finding, get_impression returns the
impression_text of the first such record in store order, and no
substring-tier or token-overlap-tier candidate can override it. -/
theorem exact_tier_first_record (data : List PatternRec) (finding : String)
    (p : PatternRec)
    (h : data.find? (fun r => pyLower r.finding_pattern == pyLower finding) = some p) :
    getImpression data finding = some p.impression_text := by
  have hne : data ≠ [] := by
    intro hd
    subst hd
    simp at h
  simp only [getImpression, if_neg hne, h]

/-- Witness for exact_tier_first_record: a finding equal (up to case)
to the first of two stored patterns resolves to the first record's
impression even though the second record is a substring candidate. -/
theorem exact_tier_first_record_witness :
    getImpression
      [PatternRec.mk "Pulmonary Nodule" "ImpA", PatternRec.mk "nodule" "ImpB"]
      "pulmonary nodule" = some "ImpA" :=
  exact_tier_first_record
    [PatternRec.mk "Pulmonary Nodule" "ImpA", PatternRec.mk "nodule" "ImpB"]
    "pulmonary nodule" (PatternRec.mk "Pulmonary Nodule" "ImpA") (by decide)

/-- C2: with no exact-tier match and at least one substring-tier
candidate, get_impression returns the impression of the leftmost
maximal-score candidate; a record contributes a candidate exactly when
its lower-cased pattern is a substring of the lower-cased finding, with
score equal to pattern length plus a 5-point bonus when the finding
starts with the pattern; the selected candidate beats all others and
strictly beats every earlier one (store-order tie-break). -/
theorem substring_tier_selection (data : List PatternRec) (finding : String)
    (hex : data.find? (fun r => pyLower r.finding_pattern == pyLower finding) = none)
    (hs : subCandidates data finding ≠ []) :
    getImpression data finding = (firstMax (subCandidates data finding)).map Prod.snd ∧
    (∀ sc imp, (sc, imp) ∈ subCandidates data finding ↔
      ∃ r ∈ data, pyIn (pyLower r.finding_pattern) (pyLower finding) = true ∧
        sc = (pyLower r.finding_pattern).length +
          (if pyStartsWith (pyLower finding) (pyLower r.finding_pattern) then 5 else 0) ∧
        imp = r.impression_text) ∧
    (∀ x, firstMax (subCandidates data finding) = some x →
      ∃ pre post, subCandidates data finding = pre ++ x :: post ∧
        (∀ y ∈ pre, y.1 < x.1) ∧ ∀ y ∈ subCandidates data finding, y.1 ≤ x.1) := by
  have hne : data ≠ [] := by
    intro hd
    subst hd
    exact hs (subCandidates_nil finding)
  refine ⟨?_, ?_, ?_⟩
  · rw [getImpression_no_exact data finding hne hex]
    cases hfm : firstMax (subCandidates data finding) with
    | none => exact absurd ((firstMax_eq_none _).mp hfm) hs
    | some x => rfl
  · intro sc imp
    simp only [subCandidates, List.mem_filterMap]
    constructor
    · rintro ⟨r, hr, hf⟩
      by_cases hc : pyIn (pyLower r.finding_pattern) (pyLower finding) = true
      · rw [if_pos hc] at hf
        injection hf with hf
        injection hf with h1 h2
        exact ⟨r, hr, hc, h1.symm, h2.symm⟩
      · rw [if_neg hc] at hf
        cases hf
    · rintro ⟨r, hr, hc, hsc, himp⟩
      exact ⟨r, hr, by rw [if_pos hc, hsc, himp]⟩
  · intro x hx
    exact firstMax_decomp _ x hx

/-- Witness for substring_tier_selection at a finding matching two
substring patterns, one carrying the start-anchor bonus. -/
theorem substring_tier_selection_witness :
    getImpression [PatternRec.mk "nodule" "ImpN", PatternRec.mk "pulmonary" "ImpP"]
        "pulmonary nodule" =
      (firstMax (subCandidates
        [PatternRec.mk "nodule" "ImpN", PatternRec.mk "pulmonary" "ImpP"]
        "pulmonary nodule")).map Prod.snd :=
  (substring_tier_selection
    [PatternRec.mk "nodule" "ImpN", PatternRec.mk "pulmonary" "ImpP"]
    "pulmonary nodule" (by decide) (by decide)).1

/-- C3: when neither the exact tier nor the substring tier produced a
candidate, get_impression selects the leftmost maximal-overlap
token-tier candidate; a record qualifies exactly when the number of
distinct shared lower-cased tokens reaches min 2 (pattern token count),
a one-token pattern therefore qualifying with a single shared token;
when the token tier is also empty the result is no match. -/
theorem token_tier_selection (data : List PatternRec) (finding : String)
    (hex : data.find? (fun r => pyLower r.finding_pattern == pyLower finding) = none)
    (hsub : subCandidates data finding = []) :
    (tokCandidates data finding ≠ [] →
      getImpression data finding = (firstMax (tokCandidates data finding)).map Prod.snd) ∧
    (tokCandidates data finding = [] → getImpression data finding = none) ∧
    (∀ sc imp, (sc, imp) ∈ tokCandidates data finding ↔
      ∃ r ∈ data,
        min 2 (pySplit (pyLower r.finding_pattern)).length ≤
          countCommon (pySplit (pyLower finding)) (pySplit (pyLower r.finding_pattern)) ∧
        sc = countCommon (pySplit (pyLower finding)) (pySplit (pyLower r.finding_pattern)) ∧
        imp = r.impression_text) ∧
    (∀ r : PatternRec, (pySplit (pyLower r.finding_pattern)).length = 1 →
      (min 2 (pySplit (pyLower r.finding_pattern)).length ≤
          countCommon (pySplit (pyLower finding)) (pySplit (pyLower r.finding_pattern)) ↔
        1 ≤ countCommon (pySplit (pyLower finding)) (pySplit (pyLower r.finding_pattern)))) ∧
    (∀ x, firstMax (tokCandidates data finding) = some x →
      ∃ pre post, tokCandidates data finding = pre ++ x :: post ∧
        (∀ y ∈ pre, y.1 < x.1) ∧ ∀ y ∈ tokCandidates data finding, y.1 ≤ x.1) := by
  refine ⟨?_, ?_, ?_, ?_, ?_⟩
  · intro htok
    have hne : data ≠ [] := by
      intro hd
      subst hd
      exact htok (tokCandidates_nil finding)
    rw [getImpression_no_exact data finding hne hex, hsub]
    cases hfm : firstMax (tokCandidates data finding) with
    | none => exact absurd ((firstMax_eq_none _).mp hfm) htok
    | some x => simp [firstMax]
  · intro htok
    by_cases hne : data = []
    · subst hne
      rfl
    · rw [getImpression_no_exact data finding hne hex, hsub, htok]
      simp [firstMax]
  · intro sc imp
    simp only [tokCandidates, List.mem_filterMap]
    constructor
    · rintro ⟨r, hr, hf⟩
      by_cases hc : min 2 (pySplit (pyLower r.finding_pattern)).length ≤
          countCommon (pySplit (pyLower finding)) (pySplit (pyLower r.finding_pattern))
      · rw [if_pos hc] at hf
        injection hf with hf
        injection hf with h1 h2
        exact ⟨r, hr, hc, h1.symm, h2.symm⟩
      · rw [if_neg hc] at hf
        cases hf
    · rintro ⟨r, hr, hc, hsc, himp⟩
      exact ⟨r, hr, by rw [if_pos hc, hsc, himp]⟩
  · intro r h1
    rw [h1]
    norm_num
  · intro x hx
    exact firstMax_decomp _ x hx

/-- Witness for token_tier_selection: a paraphrased finding sharing two
tokens with a stored two-token pattern and one token with a one-token
pattern, no exact or substring match present. -/
theorem token_tier_selection_witness :
    getImpression
        [PatternRec.mk "hepatic cyst simple" "ImpH", PatternRec.mk "cyst" "ImpC"]
        "simple hepatic lesion" =
      (firstMax (tokCandidates
        [PatternRec.mk "hepatic cyst simple" "ImpH", PatternRec.mk "cyst" "ImpC"]
        "simple hepatic lesion")).map Prod.snd :=
  ((token_tier_selection
    [PatternRec.mk "hepatic cyst simple" "ImpH", PatternRec.mk "cyst" "ImpC"]
    "simple hepatic lesion" (by decide) (by decide)).1) (by decide)

/-- C8 counterexample: a store failure during matching produces exactly
the same observable outcome as a valid empty pattern set (None, the
no-match result), refuting the claim that the failure is surfaced as a
distinct retrievable error. -/
theorem store_failure_indistinct :
    getImpressionResp (Except.error "connection refused") "pulmonary nodule" =
      getImpressionResp (Except.ok ([] : List PatternRec)) "pulmonary nodule" := rfl

/-- C8 amended: a pattern-store failure during impression matching is
caught inside get_impression and returned as None, the very same
outcome as no-match; an empty pattern set likewise yields None as a
valid empty result rather than a fatal error, so callers cannot
distinguish store failure from no impression found. -/
theorem store_failure_returns_none (e finding : String) :
    getImpressionResp (Except.error e) finding = none ∧
    getImpressionResp (Except.ok ([] : List PatternRec)) finding = none :=
  ⟨rfl, rfl⟩

/-- C9: when some stored record for the section has an empty
finding_pattern and the exact tier fails, the substring tier contains a
qualifying candidate with score 5 contributed by that record (the empty
pattern is a substring of every finding and every finding starts with
it), hence get_impression always returns some impression: no-match is
unreachable. -/
theorem empty_pattern_always_matches (data : List PatternRec) (finding : String)
    (r : PatternRec) (hr : r ∈ data) (hempty : r.finding_pattern = "")
    (hex : data.find? (fun q => pyLower q.finding_pattern == pyLower finding) = none) :
    (5, r.impression_text) ∈ subCandidates data finding ∧
    ∃ t, getImpression data finding = some t := by
  have hmem : (5, r.impression_text) ∈ subCandidates data finding := by
    simp only [subCandidates, List.mem_filterMap]
    refine ⟨r, hr, ?_⟩
    rw [hempty]
    have h1 : pyIn (pyLower "") (pyLower finding) = true := substrOf_nil _
    have h2 : pyStartsWith (pyLower finding) (pyLower "") = true := isPrefixOf_nil _
    rw [if_pos h1, if_pos h2]
    rfl
  refine ⟨hmem, ?_⟩
  have hs : subCandidates data finding ≠ [] := List.ne_nil_of_mem hmem
  have hne : data ≠ [] := by
    intro hd
    subst hd
    exact hs (subCandidates_nil finding)
  rw [getImpression_no_exact data finding hne hex]
  cases hfm : firstMax (subCandidates data finding) with
  | none => exact absurd ((firstMax_eq_none _).mp hfm) hs
  | some x => exact ⟨x.2, rfl⟩

/-- Witness for empty_pattern_always_matches on a store holding one
empty pattern next to an unrelated pattern. -/
theorem empty_pattern_always_matches_witness :
    (5, "Fallback impression.") ∈
      subCandidates
        [PatternRec.mk "" "Fallback impression.", PatternRec.mk "mass" "ImpM"]
        "incidental note" ∧
    ∃ t, getImpression
        [PatternRec.mk "" "Fallback impression.", PatternRec.mk "mass" "ImpM"]
        "incidental note" = some t :=
  empty_pattern_always_matches
    [PatternRec.mk "" "Fallback impression.", PatternRec.mk "mass" "ImpM"]
    "incidental note" (PatternRec.mk "" "Fallback impression.")
    (by decide) (by decide) (by decide)

/-- A facilities row: name and the two technique templates. -/
structure Facility where
  name : String
  technique_template_chest : String
  technique_template_abdomen : String
deriving DecidableEq, Repr

/-- A report_templates row restricted to what generate_report reads:
the ordered mapping default_findings of category label to default text
(a Python dict preserves insertion order). -/
structure Template where
  default_findings : List (String × String)
deriving DecidableEq, Repr

/-- One recorded call to the external generative or vision service. -/
inductive ExtCall where
  | processFindings (findings section_name : String)
  | generateImpression (finding section_name : String)
  | categorizeFindings (findings : List String) (categories : List String) (section_name : String)
  | analyzeImage (image_data study_type : String)
deriving DecidableEq, Repr

/-- The generative collaborators of ReportGenerator, as pure oracles:
process_findings and generate_impression return the response text,
categorize_findings returns the parsed finding-to-category mapping in
Python dict iteration order. -/
structure Oracles where
  processFindings : String → String → String
  generateImpression : String → String → String
  categorizeFindings : List String → List String → String → List (String × String)
  analyzeImage : String → String → String

/-- The persistence boundary of ReportGenerator: the facilities table,
get_report_template and get_impression. -/
structure Store where
  facilities : List Facility
  getReportTemplate : String → Option Template
  getImpression : String → String → Option String

/-- The mutable state generate_report threads through a request:
report_sections, impressions, matched_findings, the trace of generative
calls, and the findings appended to unmatched_findings. -/
structure GenState where
  report_sections : List String
  impressions : List String
  matched_findings : List String
  calls : List ExtCall
  unmatched_log : List (String × String)
deriving Repr

/-- The state a generation request starts from. -/
def initState : GenState :=
  GenState.mk [] [] [] [] []

/-- Python dict assignment to a key already present: the value is
replaced in place, the key keeps its position. -/
def updAssoc (m : List (String × String)) (k v : String) : List (String × String) :=
  m.map (fun p => if p.1 = k then (k, v) else p)

/-- Lookup in an ordered association list, first matching key. -/
def assocLookup (m : List (String × String)) (k : String) : Option String :=
  match m.find? (fun p => p.1 == k) with
  | some p => some p.2
  | none => none

/-- The unmatched branch of impression resolution: the finding was
already logged; call the generative impression service (the
use_claude_for_unmatched flag is fixed to True in the source) and
collect its answer when truthy. -/
def resolveUnmatched (o : Oracles) (finding section_name : String) (st : GenState) : GenState :=
  let st1 := { st with calls := st.calls ++ [ExtCall.generateImpression finding section_name] }
  let ci := o.generateImpression finding section_name
  if ci ≠ "" then
    { st1 with impressions := st1.impressions ++ [ci],
               matched_findings := st1.matched_findings ++ [finding] }
  else st1

/-- The shared impression-resolution block of generate_report: look up
the finding in the pattern store; a truthy impression is collected,
otherwise the finding is logged as unmatched and the generative
fallback runs. -/
def resolveImpression (store : Store) (o : Oracles) (finding section_name : String)
    (st : GenState) : GenState :=
  match store.getImpression finding section_name with
  | some imp =>
    if imp ≠ "" then
      { st with impressions := st.impressions ++ [imp],
                matched_findings := st.matched_findings ++ [finding] }
    else
      resolveUnmatched o finding section_name
        { st with unmatched_log := st.unmatched_log ++ [(finding, section_name)] }
  | none =>
    resolveUnmatched o finding section_name
      { st with unmatched_log := st.unmatched_log ++ [(finding, section_name)] }

/-- First category of the template whose lower-cased label occurs in
the lower-cased finding line (the direct-match rule of stage 1). -/
def firstCat (defaultKeys : List String) (finding : String) : Option String :=
  defaultKeys.find? (fun category => pyIn (pyLower category) (pyLower finding))

/-- Stage 1 of findings categorization, one enumerated finding line at
a time: the first matching category receives the line (overwriting its
current text), the index is marked processed, and the impression for
the line is resolved. -/
def stage1Go (store : Store) (o : Oracles) (section_name : String)
    (defaultKeys : List String) :
    List (Nat × String) → List (String × String) × List Nat × GenState →
      List (String × String) × List Nat × GenState
  | [], acc => acc
  | item :: rest, acc =>
    match firstCat defaultKeys item.2 with
    | some category =>
      stage1Go store o section_name defaultKeys rest
        (updAssoc acc.1 category item.2, acc.2.1 ++ [item.1],
          resolveImpression store o item.2 section_name acc.2.2)
    | none => stage1Go store o section_name defaultKeys rest acc

/-- Stage 1 over the finding lines of a section. -/
def stage1 (store : Store) (o : Oracles) (section_name : String)
    (defaultKeys : List String) (finding_lines : List String)
    (modified : List (String × String)) (st : GenState) :
    List (String × String) × List Nat × GenState :=
  stage1Go store o section_name defaultKeys finding_lines.enum (modified, [], st)

/-- Stage 2: apply the generative categorization suggestions in order;
a suggestion whose category is a key of modified_findings overwrites
that key and resolves an impression, any other suggestion is skipped. -/
def stage2 (store : Store) (o : Oracles) (section_name : String) :
    List (String × String) → List (String × String) × GenState →
      List (String × String) × GenState
  | [], acc => acc
  | p :: rest, acc =>
    if acc.1.any (fun q => q.1 == p.2) then
      stage2 store o section_name rest
        (updAssoc acc.1 p.2 p.1, resolveImpression store o p.1 section_name acc.2)
    else stage2 store o section_name rest acc

/-- Processing of one (section_name, findings) entry of sections_data:
skip on blank findings or missing template, emit header and technique,
run both categorization stages, then emit one label-colon-text line per
category in template order. -/
def processSection (store : Store) (o : Oracles) (facility : Facility)
    (st : GenState) (entry : String × String) : GenState :=
  let section_name := entry.1
  let findings := entry.2
  if pyStrip findings = "" then st
  else
    match store.getReportTemplate section_name with
    | none => st
    | some template =>
      let header :=
        if section_name = "chest" then "CT CHEST WITHOUT CONTRAST:"
        else "CT ABDOMEN AND PELVIS WITHOUT CONTRAST"
      let technique :=
        if section_name = "chest" then facility.technique_template_chest
        else facility.technique_template_abdomen
      let st1 := { st with report_sections :=
        st.report_sections ++ [header, "TECHNIQUE:", technique, "", "FINDINGS:"] }
      let defaultKeys := template.default_findings.map Prod.fst
      let st2 := { st1 with calls :=
        st1.calls ++ [ExtCall.processFindings findings section_name] }
      let processed_findings := o.processFindings findings section_name
      let finding_lines := pySplitNl (pyStrip processed_findings)
      let r1 := stage1 store o section_name defaultKeys finding_lines
        template.default_findings st2
      let modified1 := r1.1
      let processedIdxs := r1.2.1
      let st3 := r1.2.2
      let r2 :=
        if processedIdxs.length < finding_lines.length then
          let uncategorized := finding_lines.enum.filterMap
            (fun p => if processedIdxs.contains p.1 then none else some p.2)
          let st4 := { st3 with calls := st3.calls ++
            [ExtCall.categorizeFindings uncategorized defaultKeys section_name] }
          stage2 store o section_name
            (o.categorizeFindings uncategorized defaultKeys section_name)
            (modified1, st4)
        else (modified1, st3)
      let modified2 := r2.1
      let st5 := r2.2
      { st5 with report_sections := st5.report_sections ++
          modified2.map (fun p => p.1 ++ ": " ++ p.2) ++ [""] }

/-- Numbered impression lines, Python enumerate starting at 1. -/
def enumLines (n : Nat) : List String → List String
  | [] => []
  | x :: xs => (Nat.repr n ++ ". " ++ x) :: enumLines (n + 1) xs

/-- The impression block of the report: numbered lines when any
impression was collected, otherwise the literal fallback. -/
def impressionBlock (impressions : List String) : List String :=
  if impressions = [] then ["IMPRESSION:", "Unremarkable exam."]
  else "IMPRESSION:" :: enumLines 1 impressions

/-- Image-analysis addendum: with truthy image data the vision service
is invoked and its text appended under a fixed header unless it starts
(case-insensitively) with the suppression phrase. -/
def imageNotes (o : Oracles) (image_data : Option String) (study_type : String) : List String :=
  match image_data with
  | none => []
  | some data =>
    if data = "" then []
    else
      let t := o.analyzeImage data study_type
      if t ≠ "" ∧ ¬ pyStartsWith (pyLower t) "no significant" = true then
        ["", "IMAGE ANALYSIS NOTES:", t]
      else []

/-- The vision call recorded by the image branch, when image data is
truthy. -/
def imageCalls (image_data : Option String) (study_type : String) : List ExtCall :=
  match image_data with
  | none => []
  | some data => if data = "" then [] else [ExtCall.analyzeImage data study_type]

/-- ReportGenerator.generate_report: facility lookup, per-section
processing in order, the impression block, the optional image addendum;
the result carries the report text and the trace of generative calls. -/
def generateReport (store : Store) (o : Oracles) (facility_name study_type : String)
    (sections_data : List (String × String)) (image_data : Option String) :
    String × List ExtCall :=
  match store.facilities.find? (fun f => f.name == facility_name) with
  | none => ("Error: Facility not found", [])
  | some facility =>
    let st := sections_data.foldl (processSection store o facility) initState
    (String.intercalate "\n"
        (st.report_sections ++ impressionBlock st.impressions ++
          imageNotes o image_data study_type),
      st.calls ++ imageCalls image_data study_type)

/-- Truthiness of Python current_finding: a non-None, non-empty text. -/
def optTruthy (cur : Option String) : Bool :=
  match cur with
  | some s => s ≠ ""
  | none => false

/-- Python dict assignment inside the parser: replace when the key is
present, append otherwise. -/
def dictInsert (m : List (String × String)) (k v : String) : List (String × String) :=
  if m.any (fun p => p.1 == k) then updAssoc m k v else m ++ [(k, v)]

/-- The response-parsing loop of ClaudeClient.categorize_findings: scan
stripped lines, remember the current finding, and on a category line
assign it only when the category is in the allowed list. -/
def parseGo (categories : List String) :
    List String → List (String × String) → Option String → List (String × String)
  | [], result, _ => result
  | line :: rest, result, cur =>
    let l := pyStrip line
    if pyStartsWith l "Finding:" then
      parseGo categories rest result (some (pyStrip (l.drop 8)))
    else
      if pyStartsWith l "Category:" ∧ optTruthy cur = true then
        let category := pyStrip (l.drop 9)
        let result1 :=
          if categories.contains category then dictInsert result (cur.getD "") category
          else result
        parseGo categories rest result1 none
      else parseGo categories rest result cur

/-- ClaudeClient.categorize_findings applied to a response text: the
parsed finding-to-category mapping. -/
def parseCategorization (categories : List String) (text : String) : List (String × String) :=
  parseGo categories (pySplitNl (pyStrip text)) [] none

theorem resolveUnmatched_report (o : Oracles) (finding section_name : String)
    (st : GenState) :
    (resolveUnmatched o finding section_name st).report_sections = st.report_sections := by
  simp only [resolveUnmatched]
  split <;> rfl

theorem resolveImpression_report (store : Store) (o : Oracles)
    (finding section_name : String) (st : GenState) :
    (resolveImpression store o finding section_name st).report_sections =
      st.report_sections := by
  cases h : store.getImpression finding section_name with
  | none =>
    simp only [resolveImpression, h]
    rw [resolveUnmatched_report]
  | some imp =>
    simp only [resolveImpression, h]
    split
    · rfl
    · rw [resolveUnmatched_report]

theorem stage1Go_report (store : Store) (o : Oracles) (section_name : String)
    (defaultKeys : List String) (pairs : List (Nat × String)) :
    ∀ acc, (stage1Go store o section_name defaultKeys pairs acc).2.2.report_sections =
      acc.2.2.report_sections := by
  induction pairs with
  | nil => intro acc; rfl
  | cons p rest ih =>
    intro acc
    simp only [stage1Go]
    cases firstCat defaultKeys p.2 with
    | none => exact ih acc
    | some category =>
      rw [ih]
      exact resolveImpression_report store o p.2 section_name acc.2.2

theorem stage1_report (store : Store) (o : Oracles) (section_name : String)
    (defaultKeys : List String) (lines : List String)
    (modified : List (String × String)) (st : GenState) :
    (stage1 store o section_name defaultKeys lines modified st).2.2.report_sections =
      st.report_sections :=
  stage1Go_report store o section_name defaultKeys lines.enum (modified, [], st)

theorem stage2_report (store : Store) (o : Oracles) (section_name : String)
    (cats : List (String × String)) :
    ∀ acc, (stage2 store o section_name cats acc).2.report_sections =
      acc.2.report_sections := by
  induction cats with
  | nil => intro acc; rfl
  | cons p rest ih =>
    intro acc
    simp only [stage2]
    split
    · rw [ih]
      exact resolveImpression_report store o p.1 section_name acc.2
    · exact ih acc

theorem keys_updAssoc (m : List (String × String)) (k v : String) :
    (updAssoc m k v).map Prod.fst = m.map Prod.fst := by
  induction m with
  | nil => rfl
  | cons p ps ih =>
    simp only [updAssoc, List.map_cons] at ih ⊢
    by_cases h : p.1 = k
    · rw [if_pos h, ih]
      simp [h]
    · rw [if_neg h, ih]

theorem stage1Go_keys (store : Store) (o : Oracles) (section_name : String)
    (defaultKeys : List String) (pairs : List (Nat × String)) :
    ∀ acc, (stage1Go store o section_name defaultKeys pairs acc).1.map Prod.fst =
      acc.1.map Prod.fst := by
  induction pairs with
  | nil => intro acc; rfl
  | cons p rest ih =>
    intro acc
    simp only [stage1Go]
    cases firstCat defaultKeys p.2 with
    | none => exact ih acc
    | some category =>
      rw [ih]
      exact keys_updAssoc acc.1 category p.2

theorem stage2_keys (store : Store) (o : Oracles) (section_name : String)
    (cats : List (String × String)) :
    ∀ acc, (stage2 store o section_name cats acc).1.map Prod.fst = acc.1.map Prod.fst := by
  induction cats with
  | nil => intro acc; rfl
  | cons p rest ih =>
    intro acc
    simp only [stage2]
    split
    · rw [ih]
      exact keys_updAssoc acc.1 p.2 p.1
    · exact ih acc

theorem lookup_updAssoc_same (m : List (String × String)) (k v : String)
    (h : (m.map Prod.fst).contains k = true) :
    assocLookup (updAssoc m k v) k = some v := by
  induction m with
  | nil => simp at h
  | cons p ps ih =>
    by_cases hp : p.1 = k
    · simp [updAssoc, assocLookup, List.find?, hp]
    · simp only [List.map_cons, List.contains_cons] at h
      have htail : (ps.map Prod.fst).contains k = true := by
        rcases Bool.or_eq_true_iff.mp h with h1 | h2
        · exact absurd (eq_of_beq h1).symm hp
        · exact h2
      have hbeq : (p.1 == k) = false := beq_eq_false_iff_ne.mpr hp
      simp only [updAssoc, if_neg hp, assocLookup, List.find?, List.map_cons, hbeq]
      simpa [assocLookup, updAssoc] using ih htail

theorem lookup_updAssoc_other (m : List (String × String)) (k v k' : String)
    (h : k' ≠ k) :
    assocLookup (updAssoc m k v) k' = assocLookup m k' := by
  induction m with
  | nil => rfl
  | cons p ps ih =>
    by_cases hp : p.1 = k
    · have hbeq : (k == k') = false :=
        beq_eq_false_iff_ne.mpr (fun hh => h hh.symm)
      have hbeq2 : (p.1 == k') = false :=
        beq_eq_false_iff_ne.mpr (by rw [hp]; exact fun hh => h hh.symm)
      simp only [updAssoc, if_pos hp, assocLookup, List.find?, List.map_cons, hbeq, hbeq2]
      simpa [assocLookup, updAssoc] using ih
    · cases hbeq : (p.1 == k') with
      | true =>
        simp only [updAssoc, if_neg hp, assocLookup, List.find?, List.map_cons, hbeq]
      | false =>
        simp only [updAssoc, if_neg hp, assocLookup, List.find?, List.map_cons, hbeq]
        simpa [assocLookup, updAssoc] using ih

/-- The last enumerated finding line whose first matching category is
c, if any: the finding a stage-1 pass leaves stored under c. -/
def lastMatch (defaultKeys : List String) (c : String) :
    List (Nat × String) → Option String
  | [] => none
  | p :: rest =>
    match lastMatch defaultKeys c rest with
    | some v => some v
    | none => if firstCat defaultKeys p.2 == some c then some p.2 else none

theorem stage1Go_lookup (store : Store) (o : Oracles) (section_name : String)
    (defaultKeys : List String) (pairs : List (Nat × String)) :
    ∀ (m : List (String × String)) (idxs : List Nat) (st : GenState) (c : String),
      (∀ k ∈ defaultKeys, (m.map Prod.fst).contains k = true) →
      assocLookup (stage1Go store o section_name defaultKeys pairs (m, idxs, st)).1 c =
        match lastMatch defaultKeys c pairs with
        | some v => some v
        | none => assocLookup m c := by
  induction pairs with
  | nil =>
    intro m idxs st c _
    rfl
  | cons p rest ih =>
    intro m idxs st c hkeys
    cases hfc : firstCat defaultKeys p.2 with
    | none =>
      simp only [stage1Go, hfc, lastMatch]
      rw [ih m idxs st c hkeys]
      cases lastMatch defaultKeys c rest with
      | some v => rfl
      | none => simp [hfc]
    | some category =>
      have hkeys2 : ∀ k ∈ defaultKeys,
          ((updAssoc m category p.2).map Prod.fst).contains k = true := by
        intro k hk
        rw [keys_updAssoc]
        exact hkeys k hk
      simp only [stage1Go, hfc, lastMatch]
      rw [ih (updAssoc m category p.2) (idxs ++ [p.1])
        (resolveImpression store o p.2 section_name st) c hkeys2]
      cases lastMatch defaultKeys c rest with
      | some v => rfl
      | none =>
        by_cases hcc : category = c
        · subst hcc
          have hmem : category ∈ defaultKeys :=
            List.mem_of_find?_eq_some hfc

          simp only [hfc]
          rw [lookup_updAssoc_same m category p.2 (hkeys category hmem)]
          simp
        · have hbeq : (some category == some c) = false := by
            simp [hcc]
          simp only [hfc, hbeq]
          rw [lookup_updAssoc_other m category p.2 c (fun hh => hcc hh.symm)]
          simp

/-- C4 counterexample: two finding lines both direct-match the single
category liver; after stage 1 the stored text is the second line, not
the first, so a category is replaced more than once and the last
matching finding wins. -/
theorem category_first_match_refuted :
    (stage1 (Store.mk [] (fun _ => none) (fun _ _ => some "Imp"))
        (Oracles.mk (fun _ _ => "") (fun _ _ => "") (fun _ _ _ => []) (fun _ _ => ""))
        "chest" ["liver"] ["liver enlarged", "liver cyst"]
        [("liver", "Normal.")] initState).1 = [("liver", "liver cyst")] ∧
    (stage1 (Store.mk [] (fun _ => none) (fun _ _ => some "Imp"))
        (Oracles.mk (fun _ _ => "") (fun _ _ => "") (fun _ _ _ => []) (fun _ _ => ""))
        "chest" ["liver"] ["liver enlarged", "liver cyst"]
        [("liver", "Normal.")] initState).1 ≠ [("liver", "liver enlarged")] := by
  constructor
  · rfl
  · decide

/-- C4 amended: during one stage-1 pass a category label may be
replaced several times; the text finally stored under a category is the
last finding line (in finding-line order) whose first matching category
is that label, the template default when no line matches; the key list
of the merged mapping (and hence the category ordering of the output
lines) is exactly that of the template, for stage 2 as well. -/
theorem category_merge_last_match (store : Store) (o : Oracles)
    (section_name : String) (defaultKeys : List String)
    (finding_lines : List String) (modified : List (String × String)) (st : GenState)
    (hkeys : ∀ k ∈ defaultKeys, (modified.map Prod.fst).contains k = true) :
    ((stage1 store o section_name defaultKeys finding_lines modified st).1.map Prod.fst =
      modified.map Prod.fst) ∧
    (∀ c, assocLookup
        (stage1 store o section_name defaultKeys finding_lines modified st).1 c =
      match lastMatch defaultKeys c finding_lines.enum with
      | some v => some v
      | none => assocLookup modified c) ∧
    (∀ cats m2 st2,
      (stage2 store o section_name cats (m2, st2)).1.map Prod.fst = m2.map Prod.fst) := by
  refine ⟨?_, ?_, ?_⟩
  · exact stage1Go_keys store o section_name defaultKeys finding_lines.enum _
  · intro c
    exact stage1Go_lookup store o section_name defaultKeys finding_lines.enum
      modified [] st c hkeys
  · intro cats m2 st2
    exact stage2_keys store o section_name cats (m2, st2)

/-- Witness for category_merge_last_match on a two-category template
with one matching line. -/
theorem category_merge_last_match_witness :
    (stage1 (Store.mk [] (fun _ => none) (fun _ _ => some "Imp"))
        (Oracles.mk (fun _ _ => "") (fun _ _ => "") (fun _ _ _ => []) (fun _ _ => ""))
        "chest" ["liver", "spleen"] ["spleen unremarkable"]
        [("liver", "L."), ("spleen", "S.")] initState).1.map Prod.fst =
      [("liver", "L."), ("spleen", "S.")].map Prod.fst :=
  (category_merge_last_match
    (Store.mk [] (fun _ => none) (fun _ _ => some "Imp"))
    (Oracles.mk (fun _ _ => "") (fun _ _ => "") (fun _ _ _ => []) (fun _ _ => ""))
    "chest" ["liver", "spleen"] ["spleen unremarkable"]
    [("liver", "L."), ("spleen", "S.")] initState (by decide)).1

theorem dictInsert_values (m : List (String × String)) (k v : String)
    (P : String → Prop) (hm : ∀ p ∈ m, P p.2) (hv : P v) :
    ∀ p ∈ dictInsert m k v, P p.2 := by
  intro p hp
  simp only [dictInsert] at hp
  split at hp
  · simp only [updAssoc, List.mem_map] at hp
    rcases hp with ⟨q, hq, hqe⟩
    by_cases hk : q.1 = k
    · rw [if_pos hk] at hqe
      rw [← hqe]
      exact hv
    · rw [if_neg hk] at hqe
      rw [← hqe]
      exact hm q hq
  · rcases List.mem_append.mp hp with h1 | h2
    · exact hm p h1
    · simp at h2
      rw [h2]
      exact hv

theorem parseGo_values (categories : List String) (lines : List String) :
    ∀ (result : List (String × String)) (cur : Option String),
      (∀ p ∈ result, p.2 ∈ categories) →
      ∀ p ∈ parseGo categories lines result cur, p.2 ∈ categories := by
  induction lines with
  | nil =>
    intro result cur hres p hp
    exact hres p hp
  | cons line rest ih =>
    intro result cur hres p hp
    simp only [parseGo] at hp
    split at hp
    · exact ih result _ hres p hp
    · split at hp
      · split at hp
        · rename_i hin
          refine ih _ none ?_ p hp
          intro q hq
          exact dictInsert_values result (cur.getD "") (pyStrip ((pyStrip line).drop 9))
            (fun s => s ∈ categories) hres
            (by simpa using hin) q hq
        · exact ih result none hres p hp
      · exact ih result cur hres p hp

/-- C5: the parsed finding-to-category mapping of categorize_findings
never assigns a category outside the allowed list: a response category
not in the list is dropped, so every assigned category is allowed. -/
theorem categorizer_allowed_only (categories : List String) (text f c : String)
    (h : (f, c) ∈ parseCategorization categories text) : c ∈ categories := by
  have := parseGo_values categories (pySplitNl (pyStrip text)) [] none
    (by intro p hp; simp at hp) (f, c) h
  exact this

/-- Witness for categorizer_allowed_only: a well-formed response line
pair assigning a finding to an allowed category. -/
theorem categorizer_allowed_only_witness : "Liver" ∈ ["Liver", "Spleen"] :=
  categorizer_allowed_only ["Liver", "Spleen"]
    "Finding: hepatic cyst\nCategory: Liver" "hepatic cyst" "Liver" (by decide)

/-- C7: when no known facility bears the requested name,
generate_report returns the literal error text as the entire report
with an empty generative-call trace, whatever the sections, oracles or
image data: no section processing and no external call happens. -/
theorem facility_not_found_aborts (store : Store) (o : Oracles)
    (facility_name study_type : String) (sections_data : List (String × String))
    (image_data : Option String)
    (h : ∀ f ∈ store.facilities, f.name ≠ facility_name) :
    generateReport store o facility_name study_type sections_data image_data =
      ("Error: Facility not found", []) := by
  have hfind : store.facilities.find? (fun f => f.name == facility_name) = none := by
    rw [List.find?_eq_none]
    intro f hf
    simp [h f hf]
  simp [generateReport, hfind]

/-- Witness for facility_not_found_aborts on a store holding one other
facility, with a nonempty section map and image data supplied. -/
theorem facility_not_found_aborts_witness :
    generateReport
      (Store.mk [Facility.mk "General Hospital" "TC" "TA"]
        (fun _ => none) (fun _ _ => none))
      (Oracles.mk (fun _ _ => "x") (fun _ _ => "y") (fun _ _ _ => []) (fun _ _ => "z"))
      "Unknown Clinic" "Full Body" [("chest", "nodule")] (some "imgdata") =
      ("Error: Facility not found", []) :=
  facility_not_found_aborts
    (Store.mk [Facility.mk "General Hospital" "TC" "TA"]
      (fun _ => none) (fun _ _ => none))
    (Oracles.mk (fun _ _ => "x") (fun _ _ => "y") (fun _ _ _ => []) (fun _ _ => "z"))
    "Unknown Clinic" "Full Body" [("chest", "nodule")] (some "imgdata")
    (by decide)

/-- C6: the generated report is the processed sections followed by the
impression block and the image addendum; with zero impressions
collected across all processed sections that block is exactly the
IMPRESSION header over the literal Unremarkable exam line, and with at
least one impression it is the header over one numbered line per
impression in resolution order. -/
theorem impression_block_shape (store : Store) (o : Oracles)
    (facility_name study_type : String) (sections_data : List (String × String))
    (image_data : Option String) (fac : Facility)
    (hfac : store.facilities.find? (fun f => f.name == facility_name) = some fac) :
    ((generateReport store o facility_name study_type sections_data image_data).1 =
      String.intercalate "\n"
        ((sections_data.foldl (processSection store o fac) initState).report_sections ++
          impressionBlock
            (sections_data.foldl (processSection store o fac) initState).impressions ++
          imageNotes o image_data study_type)) ∧
    ((sections_data.foldl (processSection store o fac) initState).impressions = [] →
      impressionBlock
          (sections_data.foldl (processSection store o fac) initState).impressions =
        ["IMPRESSION:", "Unremarkable exam."]) ∧
    (∀ imps : List String, imps ≠ [] →
      impressionBlock imps = "IMPRESSION:" :: enumLines 1 imps) := by
  refine ⟨?_, ?_, ?_⟩
  · simp [generateReport, hfac]
  · intro h
    rw [h]
    rfl
  · intro imps h
    simp [impressionBlock, h]

/-- Witness for impression_block_shape: one facility, no processable
section, hence zero impressions and the literal fallback block. -/
theorem impression_block_shape_witness :
    impressionBlock initState.impressions = ["IMPRESSION:", "Unremarkable exam."] :=
  (impression_block_shape
    (Store.mk [Facility.mk "General Hospital" "TC" "TA"]
      (fun _ => none) (fun _ _ => none))
    (Oracles.mk (fun _ _ => "x") (fun _ _ => "y") (fun _ _ _ => []) (fun _ _ => ""))
    "General Hospital" "Full Body" [] none
    (Facility.mk "General Hospital" "TC" "TA") (by decide)).2.1 rfl

/-- C10: every processed section (non-blank findings, template found)
whose section_name is anything other than the literal chest receives
the abdomen-and-pelvis header (no trailing colon) and the facility's
abdomen technique template verbatim; only the literal chest selects the
colon-terminated chest header and the chest technique template. -/
theorem section_header_selection (store : Store) (o : Oracles) (fac : Facility)
    (st : GenState) (section_name findings : String) (tpl : Template)
    (hfind : ¬ pyStrip findings = "")
    (htpl : store.getReportTemplate section_name = some tpl) :
    ∃ tail,
      (processSection store o fac st (section_name, findings)).report_sections =
        st.report_sections ++
          (if section_name = "chest"
            then ["CT CHEST WITHOUT CONTRAST:", "TECHNIQUE:", fac.technique_template_chest]
            else ["CT ABDOMEN AND PELVIS WITHOUT CONTRAST", "TECHNIQUE:",
              fac.technique_template_abdomen]) ++
          ["", "FINDINGS:"] ++ tail := by
  by_cases hch : section_name = "chest"
  · subst hch
    simp only [processSection, if_neg hfind, htpl, reduceIte]
    split
    · apply Exists.intro
      simp only [stage2_report, stage1_report]
      simp only [List.append_assoc, List.cons_append, List.nil_append]
      rfl
    · apply Exists.intro
      simp only [stage1_report]
      simp only [List.append_assoc, List.cons_append, List.nil_append]
      rfl
  · simp only [processSection, if_neg hfind, htpl, if_neg hch]
    split
    · apply Exists.intro
      simp only [stage2_report, stage1_report]
      simp only [List.append_assoc, List.cons_append, List.nil_append]
      rfl
    · apply Exists.intro
      simp only [stage1_report]
      simp only [List.append_assoc, List.cons_append, List.nil_append]
      rfl

/-- Witness for section_header_selection at a non-chest section name,
the case the claim singles out. -/
theorem section_header_selection_witness :
    ∃ tail,
      (processSection
          (Store.mk [] (fun s => if s = "abdomen_pelvis"
            then some (Template.mk [("liver", "Normal.")]) else none) (fun _ _ => none))
          (Oracles.mk (fun _ _ => "free fluid") (fun _ _ => "") (fun _ _ _ => [])
            (fun _ _ => ""))
          (Facility.mk "General Hospital" "TC" "TA") initState
          ("abdomen_pelvis", "free fluid")).report_sections =
        initState.report_sections ++
          (if "abdomen_pelvis" = "chest"
            then ["CT CHEST WITHOUT CONTRAST:", "TECHNIQUE:", "TC"]
            else ["CT ABDOMEN AND PELVIS WITHOUT CONTRAST", "TECHNIQUE:", "TA"]) ++
          ["", "FINDINGS:"] ++ tail :=
  section_header_selection
    (Store.mk [] (fun s => if s = "abdomen_pelvis"
      then some (Template.mk [("liver", "Normal.")]) else none) (fun _ _ => none))
    (Oracles.mk (fun _ _ => "free fluid") (fun _ _ => "") (fun _ _ _ => [])
      (fun _ _ => ""))
    (Facility.mk "General Hospital" "TC" "TA") initState
    "abdomen_pelvis" "free fluid" (Template.mk [("liver", "Normal.")])
    (by decide) (by decide)

end RadReport
